import Mathlib

/-!
Verification of the upb message field-accessor core
(`upb/message/internal/accessors.h`).

The message is modelled as a byte-addressed memory region `Nat → Nat`
(each cell holds one byte value) together with an optional extension
window.  Field values travel as `List Nat` byte buffers; multi-byte
integers (the 4-byte oneof case slot, 8-byte pointers) are read and
written little-endian.  A `upb_StringView` is laid out as 8 pointer
bytes followed by 8 size bytes (64-bit layout), so its total width is
16 bytes.

Functions translated from the header keep their C names.  The extension
array collaborator (`_upb_Message_Getext`, `_upb_Message_GetOrCreateExtension`)
and the map constructor (`_upb_Map_New`) are declared in other headers of
the repository; they are modelled from the specification and marked as
such in their doc comments.
-/

/-- Byte-addressed memory: write a single byte. -/
def writeByte (m : Nat → Nat) (i v : Nat) : Nat → Nat :=
  fun j => if j = i then v else m j

/-- Byte-addressed memory: write the buffer `v` starting at offset `ofs`. -/
def writeBytes (m : Nat → Nat) (ofs : Nat) (v : List Nat) : Nat → Nat :=
  fun j => if ofs ≤ j ∧ j < ofs + v.length then v.getD (j - ofs) 0 else m j

/-- Byte-addressed memory: read `n` bytes starting at offset `ofs`. -/
def readBytes (m : Nat → Nat) (ofs n : Nat) : List Nat :=
  (List.range n).map fun i => m (ofs + i)

/-- Little-endian value of a byte list. -/
def leVal : List Nat → Nat
  | [] => 0
  | b :: bs => b + 256 * leVal bs

/-- Little-endian encoding of `v` into `n` bytes. -/
def leBytes : Nat → Nat → List Nat
  | _, 0 => []
  | v, n + 1 => v % 256 :: leBytes (v / 256) n

/-- Read the 4-byte little-endian unsigned value at `ofs` (a `uint32_t` cell). -/
def readU32 (m : Nat → Nat) (ofs : Nat) : Nat :=
  leVal (readBytes m ofs 4)

/-- Write the 4-byte little-endian unsigned value `v` at `ofs`. -/
def writeU32 (m : Nat → Nat) (ofs v : Nat) : Nat → Nat :=
  writeBytes m ofs (leBytes v 4)

/-- The four representation classes of `_upb_MiniTableField_GetRep`
(`kUpb_FieldRep_1Byte`, `_4Byte`, `_8Byte`, `_StringView`). -/
inductive upb_FieldRep where
  | r1Byte
  | r4Byte
  | r8Byte
  | rStringView
deriving DecidableEq

/-- Byte width of each representation class (`sizeof(upb_StringView) = 16`
on the 64-bit layout used throughout this model). -/
def repSize : upb_FieldRep → Nat
  | .r1Byte => 1
  | .r4Byte => 4
  | .r8Byte => 8
  | .rStringView => 16

/-- `upb_MiniTableField` restricted to the attributes this core reads:
byte offset, signed presence encoding, field number, representation
class, and the extension flag.  `extId` models the identity of the
enclosing `upb_MiniTableExtension` (the pointer used as the lookup key
into the extension array); it is meaningful only when `isExt` is true. -/
structure upb_MiniTableField where
  offset : Nat
  presence : Int
  number : Nat
  rep : upb_FieldRep
  isExt : Bool
  extId : Nat
deriving DecidableEq

/-- An extension entry: the descriptor it belongs to plus its raw value
bytes (`upb_Message_Extension` stores a descriptor pointer and a data
union; the data buffer is 16 bytes, enough for every representation). -/
structure upb_Message_Extension where
  extId : Nat
  data : List Nat
deriving DecidableEq

/-- The extension bookkeeping reachable through the message's internal
header: an arena-owned sequence of entries (indexed in entry units) with
the active window `[ext_begin, ext_end)`. -/
structure upb_Message_InternalData where
  ext_begin : Nat
  ext_end : Nat
  arr : Nat → upb_Message_Extension

/-- A message: its fixed-layout byte region plus the optional internal
header (`upb_Message_Getinternal(msg)->internal`, NULL when absent). -/
structure upb_Message where
  bytes : Nat → Nat
  internal : Option upb_Message_InternalData

-- Hasbit access ------------------------------------------------------------

/-- Translation of `_upb_hasbit_ofs`: byte offset of hasbit `idx`. -/
def _upb_hasbit_ofs (idx : Nat) : Nat := idx / 8

/-- Translation of `_upb_hasbit_mask`: bit mask of hasbit `idx` within its byte. -/
def _upb_hasbit_mask (idx : Nat) : Nat := 2 ^ (idx % 8)

/-- Translation of `_upb_hasbit`: test the hasbit. -/
def _upb_hasbit (msg : upb_Message) (idx : Nat) : Bool :=
  decide (msg.bytes (_upb_hasbit_ofs idx) &&& _upb_hasbit_mask idx ≠ 0)

/-- Translation of `_upb_sethas` (byte |= mask), acting on the byte region. -/
def _upb_sethas (m : Nat → Nat) (idx : Nat) : Nat → Nat :=
  writeByte m (_upb_hasbit_ofs idx)
    (m (_upb_hasbit_ofs idx) ||| _upb_hasbit_mask idx)

/-- Translation of `_upb_clearhas` (byte &= ~mask); the complement of an
8-bit mask is `255 ^^^ mask`. -/
def _upb_clearhas (m : Nat → Nat) (idx : Nat) : Nat → Nat :=
  writeByte m (_upb_hasbit_ofs idx)
    (m (_upb_hasbit_ofs idx) &&& (255 ^^^ _upb_hasbit_mask idx))

/-- Translation of `_upb_Message_Hasidx` (`f->presence` cast to `size_t`;
asserted positive in debug builds). -/
def _upb_Message_Hasidx (f : upb_MiniTableField) : Nat := f.presence.toNat

/-- Translation of `_upb_hasbit_field`. -/
def _upb_hasbit_field (msg : upb_Message) (f : upb_MiniTableField) : Bool :=
  _upb_hasbit msg (_upb_Message_Hasidx f)

-- Oneof case access --------------------------------------------------------

/-- Translation of `_upb_oneofcase_ofs` (`~(ptrdiff_t)f->presence`; the
bitwise complement of an integer `p` is `-p - 1`). -/
def _upb_oneofcase_ofs (f : upb_MiniTableField) : Nat := (-f.presence - 1).toNat

/-- Translation of `_upb_getoneofcase_field`: the `uint32_t` case slot. -/
def _upb_getoneofcase_field (msg : upb_Message) (f : upb_MiniTableField) : Nat :=
  readU32 msg.bytes (_upb_oneofcase_ofs f)

/-- Translation of `_upb_MiniTableField_InOneOf` (`presence < 0`). -/
def _upb_MiniTableField_InOneOf (f : upb_MiniTableField) : Bool :=
  decide (f.presence < 0)

/-- Translation of `_upb_Message_SetPresence`. -/
def _upb_Message_SetPresence (msg : upb_Message) (f : upb_MiniTableField) :
    upb_Message :=
  if 0 < f.presence then
    { msg with bytes := _upb_sethas msg.bytes (_upb_Message_Hasidx f) }
  else if _upb_MiniTableField_InOneOf f then
    { msg with bytes := writeU32 msg.bytes (_upb_oneofcase_ofs f) f.number }
  else msg

-- Representation transcoder ------------------------------------------------

/-- Translation of `_upb_MiniTable_ValueIsNonZero`: `memcmp` of the
value's bytes against a zero buffer of the representation's width; for
the string-view class, the 8-byte size field (bytes 8..15) is compared
to zero instead. -/
def _upb_MiniTable_ValueIsNonZero (d : List Nat) (rep : upb_FieldRep) : Bool :=
  match rep with
  | .r1Byte => decide (d.take 1 ≠ List.replicate 1 0)
  | .r4Byte => decide (d.take 4 ≠ List.replicate 4 0)
  | .r8Byte => decide (d.take 8 ≠ List.replicate 8 0)
  | .rStringView => decide (leVal ((d.drop 8).take 8) ≠ 0)

/-- Translation of `_upb_MiniTable_CopyFieldData` targeting the message
region: copy exactly `repSize rep` bytes of `src` to offset `ofs`. -/
def _upb_MiniTable_CopyFieldData (m : Nat → Nat) (ofs : Nat) (src : List Nat)
    (rep : upb_FieldRep) : Nat → Nat :=
  writeBytes m ofs (src.take (repSize rep))

-- Non-extension accessors --------------------------------------------------

/-- Translation of `_upb_Message_HasNonExtensionField`. -/
def _upb_Message_HasNonExtensionField (msg : upb_Message)
    (f : upb_MiniTableField) : Bool :=
  if _upb_MiniTableField_InOneOf f then
    _upb_getoneofcase_field msg f == f.number
  else
    _upb_hasbit_field msg f

/-- Translation of `_upb_Message_GetNonExtensionField`; the result is the
content of the `val` output buffer (exactly `repSize f.rep` bytes are
copied from either the default buffer or the field's storage). -/
def _upb_Message_GetNonExtensionField (msg : upb_Message)
    (f : upb_MiniTableField) (default_val : List Nat) : List Nat :=
  if (_upb_MiniTableField_InOneOf f ||
      _upb_MiniTable_ValueIsNonZero default_val f.rep) &&
     !_upb_Message_HasNonExtensionField msg f then
    default_val.take (repSize f.rep)
  else
    readBytes msg.bytes f.offset (repSize f.rep)

/-- Translation of `_upb_Message_SetNonExtensionField`: set presence,
then copy the value into the field's storage. -/
def _upb_Message_SetNonExtensionField (msg : upb_Message)
    (f : upb_MiniTableField) (val : List Nat) : upb_Message :=
  let m1 := _upb_Message_SetPresence msg f
  { m1 with bytes := _upb_MiniTable_CopyFieldData m1.bytes f.offset val f.rep }

/-- Translation of `_upb_Message_ClearNonExtensionField`. -/
def _upb_Message_ClearNonExtensionField (msg : upb_Message)
    (f : upb_MiniTableField) : upb_Message :=
  if 0 < f.presence then
    let b := _upb_MiniTable_CopyFieldData
      (_upb_clearhas msg.bytes (_upb_Message_Hasidx f)) f.offset
      (List.replicate 16 0) f.rep
    { msg with bytes := b }
  else if _upb_MiniTableField_InOneOf f then
    if _upb_getoneofcase_field msg f ≠ f.number then msg
    else
      let b := _upb_MiniTable_CopyFieldData
        (writeU32 msg.bytes (_upb_oneofcase_ofs f) 0) f.offset
        (List.replicate 16 0) f.rep
      { msg with bytes := b }
  else
    let b := _upb_MiniTable_CopyFieldData msg.bytes f.offset
      (List.replicate 16 0) f.rep
    { msg with bytes := b }

-- Extension accessors ------------------------------------------------------

/-- The active extension window `[ext_begin, ext_end)` as the list of the
`arr` indices it covers. -/
def extIndices (d : upb_Message_InternalData) : List Nat :=
  (List.range (d.ext_end - d.ext_begin)).map (d.ext_begin + ·)

/-- Modelled from the spec: the extension-array lookup
(`lookup(message, extDescriptor) -> entryRef | none`, the body of
`_upb_Message_Getext` declared in `upb/message/internal/extension.h`):
scan the active window for the entry whose descriptor identity matches,
returning its `arr` index. -/
def findExtIdx (d : upb_Message_InternalData) (id : Nat) : Option Nat :=
  (extIndices d).find? fun i => (d.arr i).extId == id

/-- Modelled from the spec: `_upb_Message_Getext` returns the matching
entry when the internal header exists and the window holds one. -/
def _upb_Message_Getext (msg : upb_Message) (e : upb_MiniTableField) :
    Option upb_Message_Extension :=
  match msg.internal with
  | none => none
  | some d => (findExtIdx d e.extId).map d.arr

/-- Translation of `_upb_Message_HasExtensionField`
(`_upb_Message_Getext(msg, ext) != NULL`). -/
def _upb_Message_HasExtensionField (msg : upb_Message)
    (e : upb_MiniTableField) : Bool :=
  (_upb_Message_Getext msg e).isSome

/-- Translation of `_upb_Message_GetExtensionField`: copy the matching
entry's value if present, else the default. -/
def _upb_Message_GetExtensionField (msg : upb_Message)
    (e : upb_MiniTableField) (default_val : List Nat) : List Nat :=
  match _upb_Message_Getext msg e with
  | some ent => ent.data.take (repSize e.rep)
  | none => default_val.take (repSize e.rep)

/-- Translation of `_upb_Message_ClearExtensionField`: if the internal
header exists and holds a matching entry, overwrite that entry with a
copy of the window's front entry (`*ext = *base`) and advance the
`ext_begin` cursor by one entry. -/
def _upb_Message_ClearExtensionField (msg : upb_Message)
    (e : upb_MiniTableField) : upb_Message :=
  match msg.internal with
  | none => msg
  | some d =>
    match findExtIdx d e.extId with
    | none => msg
    | some i =>
      let d2 : upb_Message_InternalData :=
        { ext_begin := d.ext_begin + 1, ext_end := d.ext_end,
          arr := fun j => if j = i then d.arr d.ext_begin else d.arr j }
      { msg with internal := some d2 }

/-- Modelled from the spec: `_upb_Message_GetOrCreateExtension`
(declared in `upb/message/internal/extension.h`): look up a matching
entry; if absent, reserve a fresh zero-initialized entry for this
descriptor by growing the window with arena-backed storage (`arenaOk`
models the opaque allocate-or-fail arena capability), creating the
internal header first when it is absent; return `none` on allocation
failure, changing nothing observable. -/
def _upb_Message_GetOrCreateExtension (msg : upb_Message)
    (e : upb_MiniTableField) (arenaOk : Bool) : Option (Nat × upb_Message) :=
  match msg.internal with
  | some d =>
    match findExtIdx d e.extId with
    | some i => some (i, msg)
    | none =>
      if arenaOk then
        let d2 : upb_Message_InternalData :=
          { ext_begin := d.ext_begin, ext_end := d.ext_end + 1,
            arr := fun j =>
              if j = d.ext_end then ⟨e.extId, List.replicate 16 0⟩
              else d.arr j }
        some (d.ext_end, { msg with internal := some d2 })
      else none
  | none =>
    if arenaOk then
      let d2 : upb_Message_InternalData :=
        { ext_begin := 0, ext_end := 1,
          arr := fun _ => ⟨e.extId, List.replicate 16 0⟩ }
      some (0, { msg with internal := some d2 })
    else none

/-- Translation of `_upb_Message_SetExtensionField`: get or create the
entry; on failure report `false`; otherwise copy the value into the
entry's data buffer (the first `repSize e.rep` bytes of it). -/
def _upb_Message_SetExtensionField (msg : upb_Message)
    (e : upb_MiniTableField) (val : List Nat) (arenaOk : Bool) :
    Bool × upb_Message :=
  match _upb_Message_GetOrCreateExtension msg e arenaOk with
  | none => (false, msg)
  | some (i, msg1) =>
    match msg1.internal with
    | none => (true, msg1)
    | some d =>
      let ent : upb_Message_Extension :=
        ⟨(d.arr i).extId,
          val.take (repSize e.rep) ++ (d.arr i).data.drop (repSize e.rep)⟩
      let d2 : upb_Message_InternalData :=
        { d with arr := fun j => if j = i then ent else d.arr j }
      (true, { msg1 with internal := some d2 })

-- Unified accessors --------------------------------------------------------

/-- Translation of `_upb_Message_GetField`: dispatch on the extension flag. -/
def _upb_Message_GetField (msg : upb_Message) (f : upb_MiniTableField)
    (default_val : List Nat) : List Nat :=
  if f.isExt then _upb_Message_GetExtensionField msg f default_val
  else _upb_Message_GetNonExtensionField msg f default_val

/-- Translation of `_upb_Message_SetField`: dispatch on the extension
flag; the non-extension path always succeeds. -/
def _upb_Message_SetField (msg : upb_Message) (f : upb_MiniTableField)
    (val : List Nat) (arenaOk : Bool) : Bool × upb_Message :=
  if f.isExt then _upb_Message_SetExtensionField msg f val arenaOk
  else (true, _upb_Message_SetNonExtensionField msg f val)

-- Map field initializer ----------------------------------------------------

/-- Translation of `_upb_Message_GetOrCreateMutableMap`.  The external
map constructor `_upb_Map_New(arena, key_size, val_size)` is modelled
from the spec as the function argument `mapNew` returning the new map
reference (0 = NULL on allocation failure).  The stored map pointer is
read through `_upb_Message_GetNonExtensionField` with a NULL (all-zero)
default and decoded little-endian; if it is NULL a map is constructed
and stored through `_upb_Message_SetNonExtensionField`. -/
def _upb_Message_GetOrCreateMutableMap (msg : upb_Message)
    (f : upb_MiniTableField) (key_size val_size : Nat)
    (mapNew : Nat → Nat → Nat) : Nat × upb_Message :=
  let map := leVal (_upb_Message_GetNonExtensionField msg f (List.replicate 8 0))
  if map = 0 then
    let m := mapNew key_size val_size
    (m, _upb_Message_SetNonExtensionField msg f (leBytes m 8))
  else (map, msg)

/-- Number of `_upb_Map_New` invocations a single
`_upb_Message_GetOrCreateMutableMap` call performs: exactly one when the
stored pointer is NULL, none otherwise. -/
def mapNewCalls (msg : upb_Message) (f : upb_MiniTableField) : Nat :=
  if leVal (_upb_Message_GetNonExtensionField msg f (List.replicate 8 0)) = 0
  then 1 else 0

/-- Disjointness of the byte ranges `[a, a + la)` and `[b, b + lb)`. -/
def RangeDisj (a la b lb : Nat) : Prop := a + la ≤ b ∨ b + lb ≤ a

/-- The entries of the active extension window, in window order. -/
def extWindow (d : upb_Message_InternalData) : List upb_Message_Extension :=
  (extIndices d).map d.arr

theorem writeBytes_apply_out (m : Nat → Nat) (ofs : Nat) (v : List Nat)
    (j : Nat) (h : j < ofs ∨ ofs + v.length ≤ j) :
    writeBytes m ofs v j = m j := by
  unfold writeBytes
  have : ¬(ofs ≤ j ∧ j < ofs + v.length) := by omega
  simp [this]

theorem readBytes_length (m : Nat → Nat) (ofs n : Nat) :
    (readBytes m ofs n).length = n := by
  simp [readBytes]

theorem readBytes_congr (m1 m2 : Nat → Nat) (ofs n : Nat)
    (h : ∀ j, ofs ≤ j → j < ofs + n → m1 j = m2 j) :
    readBytes m1 ofs n = readBytes m2 ofs n := by
  unfold readBytes
  apply List.map_congr_left
  intro i hi
  exact h (ofs + i) (by omega) (by simp at hi; omega)

theorem getD_range_map (v : List Nat) :
    (List.range v.length).map (fun i => v.getD i 0) = v := by
  apply List.ext_getElem
  · simp
  · intro i h1 h2
    simp only [List.getElem_map, List.getElem_range]
    rw [List.getD_eq_getElem v 0 h2]

theorem readBytes_writeBytes (m : Nat → Nat) (ofs : Nat) (v : List Nat) :
    readBytes (writeBytes m ofs v) ofs v.length = v := by
  unfold readBytes
  calc (List.range v.length).map (fun i => writeBytes m ofs v (ofs + i))
      = (List.range v.length).map (fun i => v.getD i 0) := by
        apply List.map_congr_left
        intro i hi
        simp only [List.mem_range] at hi
        unfold writeBytes
        have h1 : ofs ≤ ofs + i ∧ ofs + i < ofs + v.length := by omega
        simp [h1]
    _ = v := getD_range_map v

theorem writeByte_apply_ne (m : Nat → Nat) (i v j : Nat) (h : j ≠ i) :
    writeByte m i v j = m j := by
  simp [writeByte, h]

theorem readBytes_writeByte_disjoint (m : Nat → Nat) (ofs n i v : Nat)
    (h : i < ofs ∨ ofs + n ≤ i) :
    readBytes (writeByte m i v) ofs n = readBytes m ofs n := by
  apply readBytes_congr
  intro j h1 h2
  exact writeByte_apply_ne m i v j (by omega)

-- Little-endian lemmas ------------------------------------------------------

theorem leBytes_length (v n : Nat) : (leBytes v n).length = n := by
  induction n generalizing v with
  | zero => rfl
  | succ k ih => simp [leBytes, ih]

theorem leVal_leBytes (v n : Nat) : leVal (leBytes v n) = v % 256 ^ n := by
  induction n generalizing v with
  | zero => simp [leBytes, leVal, Nat.mod_one]
  | succ k ih =>
    simp only [leBytes, leVal, ih]
    have h1 : v % 256 + 256 * (v / 256 % 256 ^ k) < 256 ^ (k + 1) := by
      have h2 : v % 256 < 256 := Nat.mod_lt _ (by norm_num)
      have h3 : v / 256 % 256 ^ k < 256 ^ k := Nat.mod_lt _ (Nat.pos_pow_of_pos k (by norm_num))
      have : 256 ^ (k + 1) = 256 * 256 ^ k := by ring
      omega
    have h4 : v = v % 256 + 256 * (256 ^ k * (v / 256 / 256 ^ k) + v / 256 % 256 ^ k) := by
      have := Nat.div_add_mod (v / 256) (256 ^ k)
      have := Nat.div_add_mod v 256
      omega
    conv_rhs => rw [h4]
    have h5 : v % 256 + 256 * (256 ^ k * (v / 256 / 256 ^ k) + v / 256 % 256 ^ k)
        = (v % 256 + 256 * (v / 256 % 256 ^ k)) + 256 ^ (k + 1) * (v / 256 / 256 ^ k) := by
      ring
    rw [h5, Nat.add_mul_mod_self_left, Nat.mod_eq_of_lt h1]

theorem leVal_eq_zero_iff (l : List Nat) : leVal l = 0 ↔ ∀ b ∈ l, b = 0 := by
  induction l with
  | nil => simp [leVal]
  | cons b bs ih =>
    simp only [leVal, List.mem_cons]
    constructor
    · intro h
      have hb : b = 0 ∧ leVal bs = 0 := by omega
      intro x hx
      rcases hx with h1 | h2
      · omega
      · exact (ih.mp hb.2) x h2
    · intro h
      have hb : b = 0 := h b (Or.inl rfl)
      have hbs : leVal bs = 0 := ih.mpr (fun x hx => h x (Or.inr hx))
      omega

theorem leVal_replicate_zero (n : Nat) : leVal (List.replicate n 0) = 0 := by
  rw [leVal_eq_zero_iff]
  intro b hb
  exact (List.eq_of_mem_replicate hb)

theorem readU32_writeU32 (m : Nat → Nat) (ofs v : Nat) :
    readU32 (writeU32 m ofs v) ofs = v % 2 ^ 32 := by
  unfold readU32 writeU32
  have h := readBytes_writeBytes m ofs (leBytes v 4)
  rw [leBytes_length] at h
  rw [h, leVal_leBytes]
  norm_num

theorem or_two_pow_and (a k : Nat) : (a ||| 2 ^ k) &&& 2 ^ k = 2 ^ k := by
  apply Nat.eq_of_testBit_eq
  intro i
  simp only [Nat.testBit_and, Nat.testBit_or, Nat.testBit_two_pow]
  by_cases h : k = i <;> simp [h]

theorem and_mask_compl_and (a k : Nat) (hk : k < 8) :
    (a &&& (255 ^^^ 2 ^ k)) &&& 2 ^ k = 0 := by
  apply Nat.eq_of_testBit_eq
  intro i
  simp only [Nat.testBit_and, Nat.testBit_xor, Nat.testBit_two_pow,
    Nat.zero_testBit]
  have h255 : (255 : Nat) = 2 ^ 8 - 1 := by norm_num
  rw [h255, Nat.testBit_two_pow_sub_one]
  by_cases h : k = i
  · subst h; simp [hk]
  · simp [h]

theorem writeByte_apply_self (m : Nat → Nat) (i v : Nat) :
    writeByte m i v i = v := by
  simp [writeByte]

theorem getD_replicate_zero (n i : Nat) :
    (List.replicate n (0 : Nat)).getD i 0 = 0 := by
  by_cases h : i < n
  · rw [List.getD_eq_getElem _ _ (by simpa using h)]
    exact List.getElem_replicate _ _
  · exact List.getD_eq_default _ _ (by simpa using Nat.le_of_not_lt h)

theorem leBytes_zero (n : Nat) : leBytes 0 n = List.replicate n 0 := by
  induction n with
  | zero => rfl
  | succ k ih => simp [leBytes, ih, List.replicate_succ]

theorem repSize_le_16 (rep : upb_FieldRep) : repSize rep ≤ 16 := by
  cases rep <;> simp [repSize]

theorem take16_replicate (rep : upb_FieldRep) :
    (List.replicate 16 (0 : Nat)).take (repSize rep)
      = List.replicate (repSize rep) 0 := by
  rw [List.take_replicate]
  congr 1
  exact Nat.min_eq_left (repSize_le_16 rep)

theorem valueIsNonZero_replicate (rep : upb_FieldRep) :
    _upb_MiniTable_ValueIsNonZero (List.replicate (repSize rep) 0) rep
      = false := by
  cases rep <;> decide

theorem setPresence_pos (msg : upb_Message) (f : upb_MiniTableField)
    (hp : 0 < f.presence) :
    (_upb_Message_SetPresence msg f).bytes
        = _upb_sethas msg.bytes f.presence.toNat ∧
    (_upb_Message_SetPresence msg f).internal = msg.internal := by
  unfold _upb_Message_SetPresence
  rw [if_pos hp]
  exact ⟨rfl, rfl⟩

theorem setPresence_neg (msg : upb_Message) (f : upb_MiniTableField)
    (hp : f.presence < 0) :
    (_upb_Message_SetPresence msg f).bytes
        = writeU32 msg.bytes (_upb_oneofcase_ofs f) f.number ∧
    (_upb_Message_SetPresence msg f).internal = msg.internal := by
  unfold _upb_Message_SetPresence
  rw [if_neg (by omega), if_pos (by simp [_upb_MiniTableField_InOneOf, hp])]
  exact ⟨rfl, rfl⟩

theorem setPresence_zero (msg : upb_Message) (f : upb_MiniTableField)
    (hp : f.presence = 0) : _upb_Message_SetPresence msg f = msg := by
  unfold _upb_Message_SetPresence
  rw [if_neg (by omega), if_neg (by simp [_upb_MiniTableField_InOneOf, hp])]

theorem setNE_bytes (msg : upb_Message) (f : upb_MiniTableField) (v : List Nat) :
    (_upb_Message_SetNonExtensionField msg f v).bytes
        = writeBytes (_upb_Message_SetPresence msg f).bytes f.offset
            (v.take (repSize f.rep)) ∧
    (_upb_Message_SetNonExtensionField msg f v).internal
        = (_upb_Message_SetPresence msg f).internal := by
  exact ⟨rfl, rfl⟩

theorem clearNE_pos (msg : upb_Message) (f : upb_MiniTableField)
    (hp : 0 < f.presence) :
    (_upb_Message_ClearNonExtensionField msg f).bytes
        = writeBytes (_upb_clearhas msg.bytes f.presence.toNat) f.offset
            (List.replicate (repSize f.rep) 0) ∧
    (_upb_Message_ClearNonExtensionField msg f).internal = msg.internal := by
  unfold _upb_Message_ClearNonExtensionField
  rw [if_pos hp]
  refine ⟨?_, rfl⟩
  show _upb_MiniTable_CopyFieldData _ _ _ _ = _
  unfold _upb_MiniTable_CopyFieldData
  rw [take16_replicate]
  rfl

theorem clearNE_inactive (msg : upb_Message) (f : upb_MiniTableField)
    (hp : f.presence < 0)
    (hne : _upb_getoneofcase_field msg f ≠ f.number) :
    _upb_Message_ClearNonExtensionField msg f = msg := by
  unfold _upb_Message_ClearNonExtensionField
  rw [if_neg (by omega), if_pos (by simp [_upb_MiniTableField_InOneOf, hp]),
    if_pos hne]

/-- C1: for a non-extension field, `_upb_Message_GetNonExtensionField`
copies the default value into the output when (the field is in a oneof
OR the default is non-zero per the field's representation class) AND the
field is not currently has; in every other case it copies the bytes
stored at the field's offset.  The precondition that a non-zero default
implies tracked presence is carried along as stated. -/
theorem upb_get_nonextension_spec (msg : upb_Message) (f : upb_MiniTableField)
    (d : List Nat) (hne : f.isExt = false)
    (hd : d.length = repSize f.rep)
    (hpre : _upb_MiniTable_ValueIsNonZero d f.rep = true → f.presence ≠ 0) :
    (((_upb_MiniTableField_InOneOf f = true ∨
        _upb_MiniTable_ValueIsNonZero d f.rep = true) ∧
       _upb_Message_HasNonExtensionField msg f = false) →
      _upb_Message_GetNonExtensionField msg f d = d) ∧
    (((_upb_MiniTableField_InOneOf f = false ∧
        _upb_MiniTable_ValueIsNonZero d f.rep = false) ∨
       _upb_Message_HasNonExtensionField msg f = true) →
      _upb_Message_GetNonExtensionField msg f d
        = readBytes msg.bytes f.offset (repSize f.rep)) := by
  constructor
  · rintro ⟨hor, hhas⟩
    unfold _upb_Message_GetNonExtensionField
    have hcond : ((_upb_MiniTableField_InOneOf f ||
        _upb_MiniTable_ValueIsNonZero d f.rep) &&
        !_upb_Message_HasNonExtensionField msg f) = true := by
      rcases hor with h | h <;> simp [h, hhas]
    rw [if_pos hcond, ← hd, List.take_length]
  · intro hor
    unfold _upb_Message_GetNonExtensionField
    have hcond : ¬(((_upb_MiniTableField_InOneOf f ||
        _upb_MiniTable_ValueIsNonZero d f.rep) &&
        !_upb_Message_HasNonExtensionField msg f) = true) := by
      rcases hor with ⟨h1, h2⟩ | h
      · simp [h1, h2]
      · simp [h]
    rw [if_neg hcond]

/-- Closed instance of the C1 theorem: a hasbit field with a non-zero
default whose message is fresh (not has) reads back the default. -/
theorem upb_get_nonextension_spec_witness :
    _upb_Message_GetNonExtensionField ⟨fun _ => 0, none⟩
        ⟨8, 3, 1, .r4Byte, false, 0⟩ [5, 0, 0, 0] = [5, 0, 0, 0] :=
  (upb_get_nonextension_spec ⟨fun _ => 0, none⟩ ⟨8, 3, 1, .r4Byte, false, 0⟩
      [5, 0, 0, 0] rfl (by decide) (fun _ => by decide)).1
    ⟨Or.inr (by decide), by decide⟩

/-- C2: clearing a oneof member whose case slot does not hold its field
number is a total no-op: the resulting message is the very same state,
so no byte changes. -/
theorem upb_clear_inactive_oneof_noop (msg : upb_Message)
    (f : upb_MiniTableField) (hp : f.presence < 0)
    (hne : _upb_getoneofcase_field msg f ≠ f.number) :
    _upb_Message_ClearNonExtensionField msg f = msg ∧
    ∀ j, (_upb_Message_ClearNonExtensionField msg f).bytes j = msg.bytes j := by
  have h := clearNE_inactive msg f hp hne
  exact ⟨h, fun j => by rw [h]⟩

/-- Closed instance of the C2 theorem on a fresh message (case slot 0,
member number 10). -/
theorem upb_clear_inactive_oneof_noop_witness :
    _upb_Message_ClearNonExtensionField ⟨fun _ => 0, none⟩
        ⟨12, -5, 10, .r4Byte, false, 0⟩ = ⟨fun _ => 0, none⟩ :=
  (upb_clear_inactive_oneof_noop ⟨fun _ => 0, none⟩
      ⟨12, -5, 10, .r4Byte, false, 0⟩ (by decide) (by decide)).1

/-- C8: `_upb_Message_SetPresence` sets the hasbit at byte
`presence / 8`, mask `2 ^ (presence % 8)` when presence is positive
(touching no other byte), writes the field number into the 4-byte
little-endian oneof case slot at byte offset `~presence = -presence - 1`
when presence is negative (touching no byte outside the slot), and does
nothing when presence is zero. -/
theorem upb_set_presence_spec (msg : upb_Message) (f : upb_MiniTableField) :
    (0 < f.presence →
      (_upb_Message_SetPresence msg f).bytes (f.presence.toNat / 8)
          = msg.bytes (f.presence.toNat / 8) ||| 2 ^ (f.presence.toNat % 8) ∧
      ∀ j, j ≠ f.presence.toNat / 8 →
        (_upb_Message_SetPresence msg f).bytes j = msg.bytes j) ∧
    (f.presence < 0 →
      readU32 (_upb_Message_SetPresence msg f).bytes ((-f.presence - 1).toNat)
          = f.number % 2 ^ 32 ∧
      ∀ j, j < (-f.presence - 1).toNat ∨ (-f.presence - 1).toNat + 4 ≤ j →
        (_upb_Message_SetPresence msg f).bytes j = msg.bytes j) ∧
    (f.presence = 0 → _upb_Message_SetPresence msg f = msg) := by
  refine ⟨?_, ?_, ?_⟩
  · intro hp
    have hb := (setPresence_pos msg f hp).1
    rw [hb]
    unfold _upb_sethas _upb_hasbit_ofs _upb_hasbit_mask
    exact ⟨writeByte_apply_self _ _ _, fun j hj => writeByte_apply_ne _ _ _ _ hj⟩
  · intro hp
    have hb := (setPresence_neg msg f hp).1
    have hofs : _upb_oneofcase_ofs f = (-f.presence - 1).toNat := rfl
    rw [hb, hofs]
    refine ⟨readU32_writeU32 _ _ _, fun j hj => ?_⟩
    unfold writeU32
    exact writeBytes_apply_out _ _ _ _ (by rw [leBytes_length]; omega)
  · exact setPresence_zero msg f

/-- Closed instances of the C8 theorem: a hasbit write (presence 3 sets
mask 8 in byte 0), a oneof-slot write (presence -5 writes number 10 at
offset 4), and the implicit-presence no-op. -/
theorem upb_set_presence_spec_witness :
    (_upb_Message_SetPresence ⟨fun _ => 0, none⟩
        ⟨0, 3, 1, .r4Byte, false, 0⟩).bytes 0 = 8 ∧
    readU32 (_upb_Message_SetPresence ⟨fun _ => 0, none⟩
        ⟨8, -5, 10, .r4Byte, false, 0⟩).bytes 4 = 10 ∧
    _upb_Message_SetPresence ⟨fun _ => 0, none⟩
        ⟨0, 0, 1, .r4Byte, false, 0⟩ = ⟨fun _ => 0, none⟩ := by
  refine ⟨?_, ?_, ?_⟩
  · have h := ((upb_set_presence_spec ⟨fun _ => 0, none⟩
        ⟨0, 3, 1, .r4Byte, false, 0⟩).1 (by decide)).1
    simpa using h
  · have h := (((upb_set_presence_spec ⟨fun _ => 0, none⟩
        ⟨8, -5, 10, .r4Byte, false, 0⟩).2).1 (by decide)).1
    simpa using h
  · exact ((upb_set_presence_spec ⟨fun _ => 0, none⟩
        ⟨0, 0, 1, .r4Byte, false, 0⟩).2).2 rfl

theorem bytes_ne_replicate_iff (d : List Nat) (n : Nat) (h : d.length = n) :
    d ≠ List.replicate n 0 ↔ ∃ i, i < n ∧ d.getD i 0 ≠ 0 := by
  constructor
  · intro hne
    by_contra hno
    push_neg at hno
    apply hne
    apply List.ext_getElem (by simpa using h)
    intro i h1 h2
    rw [List.getElem_replicate]
    have := hno i (by omega)
    rwa [List.getD_eq_getElem d 0 h1] at this
  · rintro ⟨i, hi, hne0⟩ heq
    apply hne0
    rw [heq, getD_replicate_zero]

/-- C9: `_upb_MiniTable_ValueIsNonZero` is true for the 1-, 4-, and
8-byte classes exactly when some byte of that width is non-zero, and for
the string-view class exactly when the 8-byte size field (bytes 8..15)
is non-zero, independently of the 8 pointer bytes; in particular a
string-view whose size is zero is the zero value whatever its pointer
bytes hold. -/
theorem upb_value_is_nonzero_spec :
    (∀ d : List Nat, d.length = 1 →
      (_upb_MiniTable_ValueIsNonZero d .r1Byte = true ↔
        ∃ i, i < 1 ∧ d.getD i 0 ≠ 0)) ∧
    (∀ d : List Nat, d.length = 4 →
      (_upb_MiniTable_ValueIsNonZero d .r4Byte = true ↔
        ∃ i, i < 4 ∧ d.getD i 0 ≠ 0)) ∧
    (∀ d : List Nat, d.length = 8 →
      (_upb_MiniTable_ValueIsNonZero d .r8Byte = true ↔
        ∃ i, i < 8 ∧ d.getD i 0 ≠ 0)) ∧
    (∀ p s : List Nat, p.length = 8 → s.length = 8 →
      (_upb_MiniTable_ValueIsNonZero (p ++ s) .rStringView = true ↔
        leVal s ≠ 0)) ∧
    (∀ p : List Nat, p.length = 8 →
      _upb_MiniTable_ValueIsNonZero (p ++ List.replicate 8 0) .rStringView
        = false) := by
  have hsv : ∀ p s : List Nat, p.length = 8 → s.length = 8 →
      (_upb_MiniTable_ValueIsNonZero (p ++ s) .rStringView = true ↔
        leVal s ≠ 0) := by
    intro p s hp hs
    have hdrop : (p ++ s).drop 8 = s := by
      rw [← hp]; exact List.drop_left p s
    have htake : s.take 8 = s := by rw [← hs, List.take_length]
    simp only [_upb_MiniTable_ValueIsNonZero, hdrop, htake]
    simp
  refine ⟨?_, ?_, ?_, hsv, ?_⟩
  · intro d h
    have ht : d.take 1 = d := by rw [← h, List.take_length]
    simp only [_upb_MiniTable_ValueIsNonZero, ht]
    simpa using bytes_ne_replicate_iff d 1 h
  · intro d h
    have ht : d.take 4 = d := by rw [← h, List.take_length]
    simp only [_upb_MiniTable_ValueIsNonZero, ht]
    simpa using bytes_ne_replicate_iff d 4 h
  · intro d h
    have ht : d.take 8 = d := by rw [← h, List.take_length]
    simp only [_upb_MiniTable_ValueIsNonZero, ht]
    simpa using bytes_ne_replicate_iff d 8 h
  · intro p hp
    have h := hsv p (List.replicate 8 0) hp (by simp)
    rw [leVal_replicate_zero] at h
    simpa using h

/-- Closed instance of the C9 theorem: a string-view with zero size and
a non-null pointer counts as the zero value, while one with a non-zero
size does not. -/
theorem upb_value_is_nonzero_spec_witness :
    _upb_MiniTable_ValueIsNonZero
        ([1, 0, 0, 0, 0, 0, 0, 0] ++ List.replicate 8 0) .rStringView
      = false ∧
    (_upb_MiniTable_ValueIsNonZero
        ([1, 0, 0, 0, 0, 0, 0, 0] ++ [2, 0, 0, 0, 0, 0, 0, 0]) .rStringView
      = true ↔ leVal [2, 0, 0, 0, 0, 0, 0, 0] ≠ 0) :=
  ⟨(upb_value_is_nonzero_spec.2.2.2.2) [1, 0, 0, 0, 0, 0, 0, 0] (by decide),
   (upb_value_is_nonzero_spec.2.2.2.1) [1, 0, 0, 0, 0, 0, 0, 0]
     [2, 0, 0, 0, 0, 0, 0, 0] (by decide) (by decide)⟩

/-- C5: the unified `_upb_Message_SetField` always reports success on a
non-extension field; on an extension field it reports success exactly
when `_upb_Message_GetOrCreateExtension` produced an entry, and on
failure (arena exhaustion) it returns the message unchanged. -/
theorem upb_set_field_result_spec (msg : upb_Message) (f : upb_MiniTableField)
    (v : List Nat) (arenaOk : Bool) :
    (f.isExt = false → (_upb_Message_SetField msg f v arenaOk).1 = true) ∧
    (f.isExt = true →
      ((_upb_Message_SetField msg f v arenaOk).1 = true ↔
        (_upb_Message_GetOrCreateExtension msg f arenaOk).isSome = true) ∧
      ((_upb_Message_SetField msg f v arenaOk).1 = false →
        (_upb_Message_SetField msg f v arenaOk).2 = msg)) := by
  constructor
  · intro h
    simp [_upb_Message_SetField, h]
  · intro h
    unfold _upb_Message_SetField
    rw [if_pos h]
    unfold _upb_Message_SetExtensionField
    rcases hg : _upb_Message_GetOrCreateExtension msg f arenaOk with _ | ⟨i, m1⟩
    · simp
    · rcases hm : m1.internal with _ | dd <;> simp [hm]

/-- Closed instances of the C5 theorem: success on a non-extension
field, and failure with an unchanged message when the arena is
exhausted while setting an absent extension. -/
theorem upb_set_field_result_spec_witness :
    (_upb_Message_SetField ⟨fun _ => 0, none⟩ ⟨8, 3, 1, .r4Byte, false, 0⟩
        [7, 0, 0, 0] true).1 = true ∧
    ((_upb_Message_SetField ⟨fun _ => 0, none⟩ ⟨0, 0, 100, .r4Byte, true, 100⟩
        [7, 0, 0, 0] false).1 = false →
      (_upb_Message_SetField ⟨fun _ => 0, none⟩ ⟨0, 0, 100, .r4Byte, true, 100⟩
        [7, 0, 0, 0] false).2 = ⟨fun _ => 0, none⟩) :=
  ⟨(upb_set_field_result_spec ⟨fun _ => 0, none⟩ ⟨8, 3, 1, .r4Byte, false, 0⟩
      [7, 0, 0, 0] true).1 rfl,
   ((upb_set_field_result_spec ⟨fun _ => 0, none⟩ ⟨0, 0, 100, .r4Byte, true, 100⟩
      [7, 0, 0, 0] false).2 rfl).2⟩

theorem take_eq_self_of_length (v : List Nat) (n : Nat) (hv : v.length = n) :
    v.take n = v := by
  rw [← hv, List.take_length]

theorem length_take_of_length (v : List Nat) (n : Nat) (hv : v.length = n) :
    (v.take n).length = n := by
  rw [take_eq_self_of_length v n hv, hv]

/-- C4: hasbit round trip.  For a field with positive presence whose
hasbit byte lies outside the field's storage range: after `set`, `has`
is true and `get` returns the written value; after `clear`, `has` is
false, `get` returns the default, and the storage bytes are all zero.
The default is a well-formed default buffer: of the field's width, and
either non-zero per the representation or the all-zero pattern. -/
theorem upb_hasbit_field_roundtrip (msg : upb_Message) (f : upb_MiniTableField)
    (v d : List Nat) (hp : 0 < f.presence)
    (hdisj : RangeDisj f.offset (repSize f.rep)
      (_upb_hasbit_ofs (_upb_Message_Hasidx f)) 1)
    (hv : v.length = repSize f.rep)
    (hd : d.length = repSize f.rep)
    (hdz : _upb_MiniTable_ValueIsNonZero d f.rep = true ∨
      d = List.replicate (repSize f.rep) 0) :
    _upb_Message_HasNonExtensionField
        (_upb_Message_SetNonExtensionField msg f v) f = true ∧
    _upb_Message_GetNonExtensionField
        (_upb_Message_SetNonExtensionField msg f v) f d = v ∧
    _upb_Message_HasNonExtensionField
        (_upb_Message_ClearNonExtensionField msg f) f = false ∧
    _upb_Message_GetNonExtensionField
        (_upb_Message_ClearNonExtensionField msg f) f d = d ∧
    readBytes (_upb_Message_ClearNonExtensionField msg f).bytes f.offset
        (repSize f.rep) = List.replicate (repSize f.rep) 0 := by
  have hio : _upb_MiniTableField_InOneOf f = false := by
    simp only [_upb_MiniTableField_InOneOf, decide_eq_false_iff_not]
    omega
  have hk : _upb_Message_Hasidx f % 8 < 8 := Nat.mod_lt _ (by norm_num)
  have hbytesS : (_upb_Message_SetNonExtensionField msg f v).bytes
      = writeBytes (_upb_sethas msg.bytes (_upb_Message_Hasidx f)) f.offset
          (v.take (repSize f.rep)) := by
    rw [(setNE_bytes msg f v).1, (setPresence_pos msg f hp).1]
    rfl
  have hShb : (_upb_Message_SetNonExtensionField msg f v).bytes
        (_upb_hasbit_ofs (_upb_Message_Hasidx f))
      = msg.bytes (_upb_hasbit_ofs (_upb_Message_Hasidx f)) |||
          _upb_hasbit_mask (_upb_Message_Hasidx f) := by
    rw [hbytesS, writeBytes_apply_out _ _ _ _ ?_]
    · exact writeByte_apply_self _ _ _
    · rw [length_take_of_length v _ hv]
      rcases hdisj with h | h
      · right; omega
      · left; omega
  have hhasS : _upb_Message_HasNonExtensionField
      (_upb_Message_SetNonExtensionField msg f v) f = true := by
    simp only [_upb_Message_HasNonExtensionField, hio, Bool.false_eq_true,
      if_false, _upb_hasbit_field, _upb_hasbit, hShb, _upb_hasbit_mask]
    rw [or_two_pow_and]
    have h2 : (2 : Nat) ^ (_upb_Message_Hasidx f % 8) ≠ 0 :=
      (Nat.pos_pow_of_pos _ (by norm_num)).ne'
    simp [h2]
  have hgetS : _upb_Message_GetNonExtensionField
      (_upb_Message_SetNonExtensionField msg f v) f d = v := by
    unfold _upb_Message_GetNonExtensionField
    rw [if_neg (by simp [hhasS])]
    rw [hbytesS]
    have hlen := length_take_of_length v _ hv
    have h := readBytes_writeBytes
      (_upb_sethas msg.bytes (_upb_Message_Hasidx f)) f.offset
      (v.take (repSize f.rep))
    rw [hlen] at h
    rw [h, take_eq_self_of_length v _ hv]
  have hbytesC : (_upb_Message_ClearNonExtensionField msg f).bytes
      = writeBytes (_upb_clearhas msg.bytes (_upb_Message_Hasidx f)) f.offset
          (List.replicate (repSize f.rep) 0) := (clearNE_pos msg f hp).1
  have hChb : (_upb_Message_ClearNonExtensionField msg f).bytes
        (_upb_hasbit_ofs (_upb_Message_Hasidx f))
      = msg.bytes (_upb_hasbit_ofs (_upb_Message_Hasidx f)) &&&
          (255 ^^^ _upb_hasbit_mask (_upb_Message_Hasidx f)) := by
    rw [hbytesC, writeBytes_apply_out _ _ _ _ ?_]
    · exact writeByte_apply_self _ _ _
    · rw [List.length_replicate]
      rcases hdisj with h | h
      · right; omega
      · left; omega
  have hhasC : _upb_Message_HasNonExtensionField
      (_upb_Message_ClearNonExtensionField msg f) f = false := by
    simp only [_upb_Message_HasNonExtensionField, hio, Bool.false_eq_true,
      if_false, _upb_hasbit_field, _upb_hasbit, hChb, _upb_hasbit_mask]
    rw [and_mask_compl_and _ _ hk]
    simp
  have hzero : readBytes (_upb_Message_ClearNonExtensionField msg f).bytes
      f.offset (repSize f.rep) = List.replicate (repSize f.rep) 0 := by
    rw [hbytesC]
    have h := readBytes_writeBytes
      (_upb_clearhas msg.bytes (_upb_Message_Hasidx f)) f.offset
      (List.replicate (repSize f.rep) 0)
    rwa [List.length_replicate] at h
  have hgetC : _upb_Message_GetNonExtensionField
      (_upb_Message_ClearNonExtensionField msg f) f d = d := by
    unfold _upb_Message_GetNonExtensionField
    rcases hdz with hnz | hzd
    · rw [if_pos (by simp [hnz, hhasC])]
      exact take_eq_self_of_length d _ hd
    · have hvz : _upb_MiniTable_ValueIsNonZero d f.rep = false := by
        rw [hzd]; exact valueIsNonZero_replicate f.rep
      rw [if_neg (by simp [hio, hvz]), hzero, hzd]
  exact ⟨hhasS, hgetS, hhasC, hgetC, hzero⟩

/-- Closed instance of the C4 theorem: a 4-byte hasbit field (presence
index 3, storage at offset 8) set to 7 is has and reads back 7; after
clear it is not has, reads the default 5, and its storage is zero. -/
theorem upb_hasbit_field_roundtrip_witness :
    _upb_Message_HasNonExtensionField
        (_upb_Message_SetNonExtensionField ⟨fun _ => 0, none⟩
          ⟨8, 3, 1, .r4Byte, false, 0⟩ [7, 0, 0, 0])
        ⟨8, 3, 1, .r4Byte, false, 0⟩ = true ∧
    _upb_Message_GetNonExtensionField
        (_upb_Message_ClearNonExtensionField ⟨fun _ => 0, none⟩
          ⟨8, 3, 1, .r4Byte, false, 0⟩)
        ⟨8, 3, 1, .r4Byte, false, 0⟩ [5, 0, 0, 0] = [5, 0, 0, 0] := by
  have h := upb_hasbit_field_roundtrip ⟨fun _ => 0, none⟩
    ⟨8, 3, 1, .r4Byte, false, 0⟩ [7, 0, 0, 0] [5, 0, 0, 0]
    (by decide) (Or.inr (by decide)) (by decide) (by decide)
    (Or.inl (by decide))
  exact ⟨h.1, h.2.2.2.1⟩

theorem getMap_stored (msg : upb_Message) (f : upb_MiniTableField)
    (hp : f.presence = 0) (hrep : f.rep = .r8Byte) :
    _upb_Message_GetNonExtensionField msg f (List.replicate 8 0)
      = readBytes msg.bytes f.offset 8 := by
  unfold _upb_Message_GetNonExtensionField
  have hio : _upb_MiniTableField_InOneOf f = false := by
    simp only [_upb_MiniTableField_InOneOf, decide_eq_false_iff_not]
    omega
  have hvz : _upb_MiniTable_ValueIsNonZero (List.replicate 8 0) f.rep = false := by
    rw [hrep]
    exact valueIsNonZero_replicate .r8Byte
  have hcond : ¬(((_upb_MiniTableField_InOneOf f ||
      _upb_MiniTable_ValueIsNonZero (List.replicate 8 0) f.rep) &&
      !_upb_Message_HasNonExtensionField msg f) = true) := by
    rw [hio, hvz]
    simp
  rw [if_neg hcond, hrep]
  rfl

theorem pow256_8 : (256 : Nat) ^ 8 = 2 ^ 64 := by norm_num

theorem gocm_creates (msg : upb_Message) (f : upb_MiniTableField)
    (ks vs : Nat) (mapNew : Nat → Nat → Nat)
    (hp : f.presence = 0) (hrep : f.rep = .r8Byte)
    (hm0 : leVal (readBytes msg.bytes f.offset 8) = 0) :
    _upb_Message_GetOrCreateMutableMap msg f ks vs mapNew
      = (mapNew ks vs,
         _upb_Message_SetNonExtensionField msg f (leBytes (mapNew ks vs) 8)) ∧
    readBytes (_upb_Message_GetOrCreateMutableMap msg f ks vs mapNew).2.bytes
        f.offset 8 = leBytes (mapNew ks vs) 8 ∧
    mapNewCalls msg f = 1 := by
  have hget1 := getMap_stored msg f hp hrep
  have hfirst : _upb_Message_GetOrCreateMutableMap msg f ks vs mapNew
      = (mapNew ks vs,
         _upb_Message_SetNonExtensionField msg f (leBytes (mapNew ks vs) 8)) := by
    unfold _upb_Message_GetOrCreateMutableMap
    rw [hget1, hm0]
    simp
  have htake : (leBytes (mapNew ks vs) 8).take (repSize f.rep)
      = leBytes (mapNew ks vs) 8 := by
    rw [hrep]
    exact take_eq_self_of_length _ _ (leBytes_length _ _)
  have hbytes1 : (_upb_Message_SetNonExtensionField msg f
      (leBytes (mapNew ks vs) 8)).bytes
      = writeBytes msg.bytes f.offset (leBytes (mapNew ks vs) 8) := by
    rw [(setNE_bytes _ _ _).1, setPresence_zero msg f hp, htake]
  refine ⟨hfirst, ?_, ?_⟩
  · rw [hfirst]
    show readBytes (_upb_Message_SetNonExtensionField msg f
      (leBytes (mapNew ks vs) 8)).bytes f.offset 8 = _
    rw [hbytes1]
    have h := readBytes_writeBytes msg.bytes f.offset (leBytes (mapNew ks vs) 8)
    rwa [leBytes_length] at h
  · unfold mapNewCalls
    rw [hget1, hm0]
    simp

theorem gocm_existing (msg : upb_Message) (f : upb_MiniTableField)
    (ks vs : Nat) (mapNew : Nat → Nat → Nat)
    (hp : f.presence = 0) (hrep : f.rep = .r8Byte)
    (hm : leVal (readBytes msg.bytes f.offset 8) ≠ 0) :
    _upb_Message_GetOrCreateMutableMap msg f ks vs mapNew
      = (leVal (readBytes msg.bytes f.offset 8), msg) ∧
    mapNewCalls msg f = 0 := by
  have hget1 := getMap_stored msg f hp hrep
  constructor
  · unfold _upb_Message_GetOrCreateMutableMap
    rw [hget1]
    simp [hm]
  · unfold mapNewCalls
    rw [hget1]
    simp [hm]

/-- C6: `_upb_Message_GetOrCreateMutableMap` is idempotent: on a map
field with no stored map, two consecutive calls (arena succeeding, i.e.
the constructor returns a non-null reference) return the same map
reference and the same message, and the external map constructor is
consulted exactly once across the two calls. -/
theorem upb_getorcreatemap_idempotent (msg : upb_Message)
    (f : upb_MiniTableField) (ks vs : Nat) (mapNew : Nat → Nat → Nat)
    (hp : f.presence = 0) (hrep : f.rep = .r8Byte)
    (hm0 : leVal (readBytes msg.bytes f.offset 8) = 0)
    (hnz : mapNew ks vs ≠ 0) (hlt : mapNew ks vs < 2 ^ 64) :
    (_upb_Message_GetOrCreateMutableMap msg f ks vs mapNew).1 = mapNew ks vs ∧
    (_upb_Message_GetOrCreateMutableMap
        (_upb_Message_GetOrCreateMutableMap msg f ks vs mapNew).2
        f ks vs mapNew).1
      = (_upb_Message_GetOrCreateMutableMap msg f ks vs mapNew).1 ∧
    (_upb_Message_GetOrCreateMutableMap
        (_upb_Message_GetOrCreateMutableMap msg f ks vs mapNew).2
        f ks vs mapNew).2
      = (_upb_Message_GetOrCreateMutableMap msg f ks vs mapNew).2 ∧
    mapNewCalls msg f
      + mapNewCalls (_upb_Message_GetOrCreateMutableMap msg f ks vs mapNew).2 f
      = 1 := by
  obtain ⟨hfirst, hstored, hcalls1⟩ :=
    gocm_creates msg f ks vs mapNew hp hrep hm0
  have hval : leVal (readBytes
      (_upb_Message_GetOrCreateMutableMap msg f ks vs mapNew).2.bytes
      f.offset 8) = mapNew ks vs := by
    rw [hstored, leVal_leBytes, pow256_8, Nat.mod_eq_of_lt hlt]
  have hvalnz : leVal (readBytes
      (_upb_Message_GetOrCreateMutableMap msg f ks vs mapNew).2.bytes
      f.offset 8) ≠ 0 := by rw [hval]; exact hnz
  obtain ⟨hsecond, hcalls2⟩ := gocm_existing
    (_upb_Message_GetOrCreateMutableMap msg f ks vs mapNew).2
    f ks vs mapNew hp hrep hvalnz
  refine ⟨by rw [hfirst], ?_, ?_, ?_⟩
  · rw [hsecond, hval, hfirst]
  · rw [hsecond]
  · rw [hcalls1, hcalls2]

/-- Closed instance of the C6 theorem on a fresh message and a
constructor returning reference 1000. -/
theorem upb_getorcreatemap_idempotent_witness :
    (_upb_Message_GetOrCreateMutableMap ⟨fun _ => 0, none⟩
        ⟨16, 0, 3, .r8Byte, false, 0⟩ 4 8 (fun _ _ => 1000)).1 = 1000 ∧
    (_upb_Message_GetOrCreateMutableMap
        (_upb_Message_GetOrCreateMutableMap ⟨fun _ => 0, none⟩
          ⟨16, 0, 3, .r8Byte, false, 0⟩ 4 8 (fun _ _ => 1000)).2
        ⟨16, 0, 3, .r8Byte, false, 0⟩ 4 8 (fun _ _ => 1000)).2
      = (_upb_Message_GetOrCreateMutableMap ⟨fun _ => 0, none⟩
          ⟨16, 0, 3, .r8Byte, false, 0⟩ 4 8 (fun _ _ => 1000)).2 := by
  have h := upb_getorcreatemap_idempotent ⟨fun _ => 0, none⟩
    ⟨16, 0, 3, .r8Byte, false, 0⟩ 4 8 (fun _ _ => 1000)
    rfl rfl (by decide) (by decide) (by decide)
  exact ⟨h.1, h.2.2.1⟩

/-- C10: when the external map constructor fails (returns null) on a
map field whose stored value is null, `_upb_Message_GetOrCreateMutableMap`
returns null and the stored value remains null, so a later call with a
succeeding constructor still creates and stores the map. -/
theorem upb_getorcreatemap_null_map_recovery (msg : upb_Message)
    (f : upb_MiniTableField) (ks vs : Nat)
    (mapNew mapNew2 : Nat → Nat → Nat)
    (hp : f.presence = 0) (hrep : f.rep = .r8Byte)
    (hm0 : leVal (readBytes msg.bytes f.offset 8) = 0)
    (hfail : mapNew ks vs = 0)
    (hnz : mapNew2 ks vs ≠ 0) (hlt : mapNew2 ks vs < 2 ^ 64) :
    (_upb_Message_GetOrCreateMutableMap msg f ks vs mapNew).1 = 0 ∧
    leVal (readBytes
        (_upb_Message_GetOrCreateMutableMap msg f ks vs mapNew).2.bytes
        f.offset 8) = 0 ∧
    (_upb_Message_GetOrCreateMutableMap
        (_upb_Message_GetOrCreateMutableMap msg f ks vs mapNew).2
        f ks vs mapNew2).1 = mapNew2 ks vs ∧
    leVal (readBytes
        (_upb_Message_GetOrCreateMutableMap
          (_upb_Message_GetOrCreateMutableMap msg f ks vs mapNew).2
          f ks vs mapNew2).2.bytes
        f.offset 8) = mapNew2 ks vs := by
  obtain ⟨hfirst, hstored, _⟩ := gocm_creates msg f ks vs mapNew hp hrep hm0
  have hnull : leVal (readBytes
      (_upb_Message_GetOrCreateMutableMap msg f ks vs mapNew).2.bytes
      f.offset 8) = 0 := by
    rw [hstored, hfail, leBytes_zero, leVal_replicate_zero]
  obtain ⟨hsecond, hstored2, _⟩ := gocm_creates
    (_upb_Message_GetOrCreateMutableMap msg f ks vs mapNew).2
    f ks vs mapNew2 hp hrep hnull
  refine ⟨by rw [hfirst, hfail], hnull, by rw [hsecond], ?_⟩
  rw [hstored2, leVal_leBytes, pow256_8, Nat.mod_eq_of_lt hlt]

/-- Closed instance of the C10 theorem: a failing constructor leaves the
field null; a retry with a constructor returning 2000 stores 2000. -/
theorem upb_getorcreatemap_null_map_recovery_witness :
    (_upb_Message_GetOrCreateMutableMap ⟨fun _ => 0, none⟩
        ⟨16, 0, 3, .r8Byte, false, 0⟩ 4 8 (fun _ _ => 0)).1 = 0 ∧
    (_upb_Message_GetOrCreateMutableMap
        (_upb_Message_GetOrCreateMutableMap ⟨fun _ => 0, none⟩
          ⟨16, 0, 3, .r8Byte, false, 0⟩ 4 8 (fun _ _ => 0)).2
        ⟨16, 0, 3, .r8Byte, false, 0⟩ 4 8 (fun _ _ => 2000)).1 = 2000 := by
  have h := upb_getorcreatemap_null_map_recovery ⟨fun _ => 0, none⟩
    ⟨16, 0, 3, .r8Byte, false, 0⟩ 4 8 (fun _ _ => 0) (fun _ _ => 2000)
    rfl rfl (by decide) rfl (by decide) (by decide)
  exact ⟨h.1, h.2.2.1⟩

-- Oneof case slot lemmas ----------------------------------------------------

theorem find?_eq_head?_filter {α : Type} (p : α → Bool) (l : List α) :
    l.find? p = (l.filter p).head? := by
  induction l with
  | nil => rfl
  | cons a t ih =>
    by_cases h : p a
    · simp [List.find?_cons, List.filter_cons, h]
    · have hb : p a = false := by simpa using h
      simp only [List.find?_cons, List.filter_cons, hb, Bool.false_eq_true,
        if_false]
      exact ih

theorem perm_filter_eq {α : Type} (p : α → Bool) (l1 l2 : List α)
    (hperm : l1.Perm l2) (hlen : (l2.filter p).length ≤ 1) :
    l1.filter p = l2.filter p := by
  have hp := hperm.filter p
  rcases hfl : l2.filter p with _ | ⟨a, t⟩
  · rw [hfl] at hp
    exact List.perm_nil.mp hp
  · rw [hfl] at hp hlen
    have ht : t = [] := by
      cases t with
      | nil => rfl
      | cons b t2 => simp at hlen
    subst ht
    exact List.perm_singleton.mp hp

theorem set_eq_take_cons_drop {α : Type} (l : List α) (j : Nat) (a : α)
    (hj : j < l.length) :
    l.set j a = l.take j ++ a :: l.drop (j + 1) := by
  induction l generalizing j with
  | nil => simp at hj
  | cons x t ih =>
    cases j with
    | zero => simp
    | succ m =>
      have hm : m < t.length := by simpa using hj
      simp [List.set, ih m hm]

theorem set_head_drop_perm_eraseIdx {α : Type} (l : List α) (k : Nat)
    (hk : k < l.length) (a : α) (ha : l.head? = some a) :
    ((l.set k a).drop 1).Perm (l.eraseIdx k) := by
  cases l with
  | nil => simp at hk
  | cons hd t =>
    have haa : hd = a := by simpa using ha
    subst haa
    cases k with
    | zero => simp
    | succ j =>
      have hj : j < t.length := by simpa using hk
      show (t.set j hd).Perm (hd :: t.eraseIdx j)
      rw [set_eq_take_cons_drop t j hd hj, List.eraseIdx_eq_take_drop_succ]
      exact List.perm_middle

theorem filter_eraseIdx_not {α : Type} (p : α → Bool) (l : List α) (k : Nat)
    (hk : k < l.length) (hp : p (l.get ⟨k, hk⟩) = false) :
    (l.eraseIdx k).filter p = l.filter p := by
  rw [List.eraseIdx_eq_take_drop_succ, List.filter_append]
  conv_rhs => rw [← List.take_append_drop k l, List.drop_eq_getElem_cons hk]
  rw [List.filter_append, List.filter_cons]
  rw [List.get_eq_getElem] at hp
  simp [hp]

theorem map_filter_comm {α β : Type} (f : α → β) (p : β → Bool) (l : List α) :
    (l.map f).filter p = (l.filter (fun a => p (f a))).map f := by
  induction l with
  | nil => rfl
  | cons a t ih => by_cases h : p (f a) <;> simp [List.filter_cons, h, ih]

theorem mem_extIndices (d : upb_Message_InternalData) (j : Nat) :
    j ∈ extIndices d ↔
      d.ext_begin ≤ j ∧ j < d.ext_begin + (d.ext_end - d.ext_begin) := by
  unfold extIndices
  simp only [List.mem_map, List.mem_range]
  constructor
  · rintro ⟨k, hk, rfl⟩
    omega
  · rintro ⟨h1, h2⟩
    exact ⟨j - d.ext_begin, by omega, by omega⟩

theorem extIndices_nodup (d : upb_Message_InternalData) :
    (extIndices d).Nodup := by
  unfold extIndices
  exact (List.nodup_range _).map (fun a b h => by omega)

theorem extIndices_length (d : upb_Message_InternalData) :
    (extIndices d).length = d.ext_end - d.ext_begin := by
  simp [extIndices]

theorem extWindow_length (d : upb_Message_InternalData) :
    (extWindow d).length = d.ext_end - d.ext_begin := by
  simp [extWindow, extIndices_length]

theorem extWindow_getElem (d : upb_Message_InternalData) (m : Nat)
    (hm : m < (extWindow d).length) :
    (extWindow d).get ⟨m, hm⟩ = d.arr (d.ext_begin + m) := by
  simp [extWindow, extIndices]

theorem window_filter_le_one (d : upb_Message_InternalData) (x : Nat)
    (huniq : ∀ j j', j ∈ extIndices d → j' ∈ extIndices d →
      (d.arr j).extId = (d.arr j').extId → j = j') :
    ((extWindow d).filter (fun ent => ent.extId == x)).length ≤ 1 := by
  unfold extWindow
  rw [map_filter_comm]
  rw [List.length_map]
  rcases hS : (extIndices d).filter (fun j => (d.arr j).extId == x) with _ | ⟨i, t⟩
  · simp
  · rcases t with _ | ⟨i2, t2⟩
    · simp
    · exfalso
      have hsub : (i :: i2 :: t2).Sublist (extIndices d) := by
        rw [← hS]; exact List.filter_sublist _
      have hnd : (i :: i2 :: t2).Nodup := hsub.nodup (extIndices_nodup d)
      have hmem1 : i ∈ extIndices d := hsub.subset (by simp)
      have hmem2 : i2 ∈ extIndices d := hsub.subset (by simp)
      have hq1 : ((d.arr i).extId == x) = true := by
        have : i ∈ (extIndices d).filter (fun j => (d.arr j).extId == x) := by
          rw [hS]; simp
        exact (List.mem_filter.mp this).2
      have hq2 : ((d.arr i2).extId == x) = true := by
        have : i2 ∈ (extIndices d).filter (fun j => (d.arr j).extId == x) := by
          rw [hS]; simp
        exact (List.mem_filter.mp this).2
      have hne : i ≠ i2 := by
        intro h
        subst h
        simp at hnd
      exact hne (huniq i i2 hmem1 hmem2
        (by rw [beq_iff_eq.mp hq1, beq_iff_eq.mp hq2]))

theorem getext_eq (msg : upb_Message) (d : upb_Message_InternalData)
    (e : upb_MiniTableField) (hint : msg.internal = some d) :
    _upb_Message_Getext msg e = (findExtIdx d e.extId).map d.arr := by
  unfold _upb_Message_Getext
  rw [hint]

theorem getext_window (msg : upb_Message) (d : upb_Message_InternalData)
    (e : upb_MiniTableField) (hint : msg.internal = some d) :
    _upb_Message_Getext msg e
      = (extWindow d).find? (fun ent => ent.extId == e.extId) := by
  rw [getext_eq msg d e hint]
  unfold findExtIdx extWindow
  rw [List.find?_map]
  rfl

theorem clearExt_eq (msg : upb_Message) (d : upb_Message_InternalData)
    (e : upb_MiniTableField) (i : Nat) (hint : msg.internal = some d)
    (hfind : findExtIdx d e.extId = some i) :
    _upb_Message_ClearExtensionField msg e
      = ⟨msg.bytes, some ⟨d.ext_begin + 1, d.ext_end,
          fun j => if j = i then d.arr d.ext_begin else d.arr j⟩⟩ := by
  unfold _upb_Message_ClearExtensionField
  split
  · next hnone =>
    rw [hint] at hnone
    exact absurd hnone (by simp)
  · next d2 hsome =>
    rw [hint] at hsome
    injection hsome with hd
    subst hd
    split
    · next hfnone =>
      rw [hfind] at hfnone
      exact absurd hfnone (by simp)
    · next i2 hfsome =>
      rw [hfind] at hfsome
      injection hfsome with hi
      subst hi
      rfl

theorem extWindow_clear (d : upb_Message_InternalData) (i : Nat)
    (hib : d.ext_begin ≤ i)
    (hilt : i < d.ext_begin + (d.ext_end - d.ext_begin)) :
    extWindow ⟨d.ext_begin + 1, d.ext_end,
        fun j => if j = i then d.arr d.ext_begin else d.arr j⟩
      = ((extWindow d).set (i - d.ext_begin) (d.arr d.ext_begin)).drop 1 := by
  apply List.ext_getElem
  · rw [extWindow_length, List.length_drop, List.length_set, extWindow_length]
    show d.ext_end - (d.ext_begin + 1) = d.ext_end - d.ext_begin - 1
    omega
  · intro m h1 h2
    simp only [List.getElem_drop, List.getElem_set]
    simp only [extWindow, extIndices, List.getElem_map, List.getElem_range]
    by_cases hmi : d.ext_begin + 1 + m = i
    · rw [if_pos hmi, if_pos (by omega)]
    · rw [if_neg hmi, if_neg (by omega), ← Nat.add_assoc]

theorem extWindow_head (d : upb_Message_InternalData)
    (hn : 1 ≤ d.ext_end - d.ext_begin) :
    (extWindow d).head? = some (d.arr d.ext_begin) := by
  unfold extWindow extIndices
  rcases hE : d.ext_end - d.ext_begin with _ | n2
  · omega
  · rw [List.range_succ_eq_map]
    simp

theorem clearExt_window_frame (d : upb_Message_InternalData) (x i : Nat)
    (huniq : ∀ j j', j ∈ extIndices d → j' ∈ extIndices d →
      (d.arr j).extId = (d.arr j').extId → j = j')
    (hfind : findExtIdx d x = some i) (y : Nat) (hy : y ≠ x) :
    (extWindow ⟨d.ext_begin + 1, d.ext_end,
        fun j => if j = i then d.arr d.ext_begin else d.arr j⟩).find?
      (fun ent => ent.extId == y)
      = (extWindow d).find? (fun ent => ent.extId == y) := by
  have hfind2 : (extIndices d).find? (fun j => (d.arr j).extId == x)
      = some i := hfind
  have himem : i ∈ extIndices d := List.mem_of_find?_eq_some hfind2
  have hpi := List.find?_some hfind2
  have hiq : (d.arr i).extId = x := by simpa using hpi
  obtain ⟨hib, hilt⟩ := (mem_extIndices d i).mp himem
  have hn : 1 ≤ d.ext_end - d.ext_begin := by omega
  have hkW : i - d.ext_begin < (extWindow d).length := by
    rw [extWindow_length]; omega
  rw [extWindow_clear d i hib hilt, find?_eq_head?_filter, find?_eq_head?_filter]
  have hperm := set_head_drop_perm_eraseIdx (extWindow d) (i - d.ext_begin) hkW
    (d.arr d.ext_begin) (extWindow_head d hn)
  have herase : ((extWindow d).eraseIdx (i - d.ext_begin)).filter
        (fun ent => ent.extId == y)
      = (extWindow d).filter (fun ent => ent.extId == y) := by
    apply filter_eraseIdx_not _ _ _ hkW
    rw [extWindow_getElem]
    have hidx : d.ext_begin + (i - d.ext_begin) = i := by omega
    rw [hidx, hiq]
    exact beq_eq_false_iff_ne.mpr (Ne.symm hy)
  have hle : (((extWindow d).eraseIdx (i - d.ext_begin)).filter
      (fun ent => ent.extId == y)).length ≤ 1 := by
    rw [herase]
    exact window_filter_le_one d y huniq
  rw [perm_filter_eq _ _ _ hperm hle, herase]

theorem clearExt_find_none (d : upb_Message_InternalData) (x i : Nat)
    (huniq : ∀ j j', j ∈ extIndices d → j' ∈ extIndices d →
      (d.arr j).extId = (d.arr j').extId → j = j')
    (hfind : findExtIdx d x = some i) :
    findExtIdx ⟨d.ext_begin + 1, d.ext_end,
      fun j => if j = i then d.arr d.ext_begin else d.arr j⟩ x = none := by
  have hfind2 : (extIndices d).find? (fun j => (d.arr j).extId == x)
      = some i := hfind
  have himem : i ∈ extIndices d := List.mem_of_find?_eq_some hfind2
  have hpi := List.find?_some hfind2
  have hiq : (d.arr i).extId = x := by simpa using hpi
  obtain ⟨hib, hilt⟩ := (mem_extIndices d i).mp himem
  unfold findExtIdx
  rw [List.find?_eq_none]
  intro j hj hq
  have hjb2 : d.ext_begin + 1 ≤ j ∧
      j < (d.ext_begin + 1) + (d.ext_end - (d.ext_begin + 1)) :=
    (mem_extIndices _ j).mp hj
  by_cases hji : j = i
  · have hq2 : ((if j = i then d.arr d.ext_begin else d.arr j).extId == x)
        = true := hq
    rw [if_pos hji] at hq2
    have hbx : (d.arr d.ext_begin).extId = x := beq_iff_eq.mp hq2
    have hbmem : d.ext_begin ∈ extIndices d :=
      (mem_extIndices d d.ext_begin).mpr (by omega)
    have hbi : d.ext_begin = i :=
      huniq d.ext_begin i hbmem himem (by rw [hbx, hiq])
    omega
  · have hq2 : ((if j = i then d.arr d.ext_begin else d.arr j).extId == x)
        = true := hq
    rw [if_neg hji] at hq2
    have hjx : (d.arr j).extId = x := beq_iff_eq.mp hq2
    have hjmem : j ∈ extIndices d := (mem_extIndices d j).mpr (by omega)
    exact hji (huniq j i hjmem himem (by rw [hjx, hiq]))

/-- C3: clearing a present extension removes it (afterwards `has` is
false and `get` returns the default); the removal overwrites the found
entry with a copy of the window's front entry and advances the begin
cursor by one entry; and for every other extension descriptor the
lookup result (hence the `get` result) is unchanged.  The window is
assumed well-formed: at most one entry per descriptor identity, the
repository's invariant. -/
theorem upb_clear_extension_spec (msg : upb_Message)
    (d : upb_Message_InternalData) (e : upb_MiniTableField)
    (hint : msg.internal = some d)
    (huniq : ∀ j j', j ∈ extIndices d → j' ∈ extIndices d →
      (d.arr j).extId = (d.arr j').extId → j = j')
    (hfound : _upb_Message_HasExtensionField msg e = true) :
    _upb_Message_HasExtensionField (_upb_Message_ClearExtensionField msg e) e
      = false ∧
    (∀ dv : List Nat,
      _upb_Message_GetExtensionField (_upb_Message_ClearExtensionField msg e)
        e dv = dv.take (repSize e.rep)) ∧
    (∃ i, findExtIdx d e.extId = some i ∧
      _upb_Message_ClearExtensionField msg e
        = ⟨msg.bytes, some ⟨d.ext_begin + 1, d.ext_end,
            fun j => if j = i then d.arr d.ext_begin else d.arr j⟩⟩) ∧
    (∀ r : upb_MiniTableField, r.extId ≠ e.extId →
      _upb_Message_Getext (_upb_Message_ClearExtensionField msg e) r
        = _upb_Message_Getext msg r) := by
  obtain ⟨i, hfind⟩ : ∃ i, findExtIdx d e.extId = some i := by
    unfold _upb_Message_HasExtensionField at hfound
    rw [getext_eq msg d e hint] at hfound
    rcases hf : findExtIdx d e.extId with _ | i
    · rw [hf] at hfound
      simp at hfound
    · exact ⟨i, rfl⟩
  have hclear := clearExt_eq msg d e i hint hfind
  have hint2 : (_upb_Message_ClearExtensionField msg e).internal
      = some ⟨d.ext_begin + 1, d.ext_end,
          fun j => if j = i then d.arr d.ext_begin else d.arr j⟩ := by
    rw [hclear]
  have hnone := clearExt_find_none d e.extId i huniq hfind
  have hhas : _upb_Message_HasExtensionField
      (_upb_Message_ClearExtensionField msg e) e = false := by
    unfold _upb_Message_HasExtensionField
    rw [getext_eq _ _ _ hint2, hnone]
    rfl
  refine ⟨hhas, ?_, ⟨i, hfind, hclear⟩, ?_⟩
  · intro dv
    unfold _upb_Message_GetExtensionField
    rw [getext_eq _ _ _ hint2, hnone]
    rfl
  · intro r hr
    rw [getext_window _ _ _ hint2, getext_window msg d r hint]
    exact clearExt_window_frame d e.extId i huniq hfind r.extId hr

/-- Closed instance of the C3 theorem: clearing the only extension
(identity 100) of a one-entry window leaves it absent. -/
theorem upb_clear_extension_spec_witness :
    _upb_Message_HasExtensionField
      (_upb_Message_ClearExtensionField
        ⟨fun _ => 0, some ⟨0, 1, fun _ => ⟨100, List.replicate 16 0⟩⟩⟩
        ⟨0, 0, 100, .r4Byte, true, 100⟩)
      ⟨0, 0, 100, .r4Byte, true, 100⟩ = false := by
  have h := upb_clear_extension_spec
    ⟨fun _ => 0, some ⟨0, 1, fun _ => ⟨100, List.replicate 16 0⟩⟩⟩
    ⟨0, 1, fun _ => ⟨100, List.replicate 16 0⟩⟩
    ⟨0, 0, 100, .r4Byte, true, 100⟩
    rfl
    (by
      intro j j' hj hj' hid
      have h1 : j < 1 := ((mem_extIndices _ j).mp hj).2
      have h2 : j' < 1 := ((mem_extIndices _ j').mp hj').2
      omega)
    (by decide)
  exact h.1
